import Mathlib

/-
Shallow embedding of the orbtk menu widget module (src/src/menu.rs).

Machine integers are modelled as follows: Rust i32 coordinates become Int,
Rust u32 widths and heights become Nat, and the one place where u32
wrap-around can matter (the label-width multiplication in add_action) takes
an explicit remainder modulo 2^32.  Colors, text offsets and the draw pass
are omitted: no claim mentions them.  Click callbacks are modelled by the
point that emit_click would pass to the callback (an Option Point in each
event result); the callback itself is an external closure.
-/

namespace OrbtkMenu

/-- Axis-aligned rectangle with top-left origin, the geometry primitive the
module consumes.  Fields mirror the Rust Rect: x and y are i32, width and
height are u32. -/
structure Rect where
  x : Int
  y : Int
  width : Nat
  height : Nat
deriving DecidableEq

/-- Integer point, the other geometry primitive. -/
structure Point where
  x : Int
  y : Int
deriving DecidableEq

/-- Modelled from the spec: the containment test of the rectangle primitive,
which lives outside the included source (the spec lists the axis-aligned
integer rectangle with containment as a given primitive).  A point is inside
when it lies in the half-open span of the rectangle on both axes. -/
def Rect.contains (r : Rect) (p : Point) : Bool :=
  decide (r.x ≤ p.x) && decide (p.x < r.x + (r.width : Int)) &&
  decide (r.y ≤ p.y) && decide (p.y < r.y + (r.height : Int))

/-- Top-left corner of a rectangle, mirroring the point method of Rect. -/
def Rect.point (r : Rect) : Point :=
  { x := r.x, y := r.y }

/-- Pointwise subtraction of points, used to translate a click position into
a widget's local coordinate space. -/
def Point.sub (p q : Point) : Point :=
  { x := p.x - q.x, y := p.y - q.y }

/-- Modelled from the spec: the check_set primitive of the interior-mutable
cell module, which is outside the included source.  Per the spec's glossary
it has compare-and-set semantics: the cell ends up holding the requested
value, and the call reports true exactly when the stored value changed.
The first component is the new cell value, the second the report. -/
def checkSet (cur target : Bool) : Bool × Bool :=
  (target, target != cur)

/-- Input events.  Only the mouse variant carries data the module reacts to;
every other variant falls through the match arms, which the constructor
other stands for. -/
inductive Event where
  | mouse (point : Point) (left_button : Bool)
  | other
deriving DecidableEq

/-- The Action entry: a clickable labeled button.  Fields mirror the Rust
struct (rect cell, text cell, optional icon); colors, text offset and the
callback slot are omitted as explained at the top of the file.  The icon
payload is opaque, so it is modelled as Option Unit. -/
structure Action where
  rect : Rect
  text : String
  icon : Option Unit
  pressed : Bool
  hover : Bool
deriving DecidableEq

/-- Action::new: default rectangle, no icon, both flags down. -/
def Action.new (text : String) : Action :=
  { rect := { x := 0, y := 0, width := 0, height := 0 },
    text := text, icon := none, pressed := false, hover := false }

/-- One entry of a menu: either an Action or a Separator.  A Separator
carries only its rectangle cell (its two colors are omitted). -/
inductive EntryW where
  | action (a : Action)
  | separator (rect : Rect)
deriving DecidableEq

/-- The rectangle cell an entry exposes through the Entry trait. -/
def EntryW.rectOf : EntryW → Rect
  | EntryW.action a => a.rect
  | EntryW.separator r => r

/-- Store a new width into an entry's rectangle cell, leaving every other
field alone; this is the in-place width mutation of the add_action loop. -/
def EntryW.setWidth : EntryW → Nat → EntryW
  | EntryW.action a, w => EntryW.action { a with rect := { a.rect with width := w } }
  | EntryW.separator r, w => EntryW.separator { r with width := w }

/-- The Menu composite: rectangle cell, label text, owned entry list and the
two state flags.  Colors, text offset and the callback slot are omitted. -/
structure Menu where
  rect : Rect
  text : String
  entries : List EntryW
  pressed : Bool
  activated : Bool
deriving DecidableEq

/-- Menu::new followed by placing the header rectangle (the rectangle is
assigned through the Place builder, which lives outside the included
source): empty entry list, both flags down. -/
def Menu.new (rect : Rect) (name : String) : Menu :=
  { rect := rect, text := name, entries := [], pressed := false, activated := false }

/-- Body of the entry walk inside Menu::add_action.  The running state is
the accumulated y, the candidate width of the new action, and the already
processed entries.  Each step adds the entry's height to y and then runs the
two-way width normalization: a narrower existing entry is widened in place,
otherwise the candidate width is raised to the existing entry's width. -/
def addActionStep (st : Int × Nat × List EntryW) (e : EntryW) : Int × Nat × List EntryW :=
  let er := EntryW.rectOf e
  let y2 := st.1 + (er.height : Int)
  if er.width < st.2.1 then
    (y2, st.2.1, st.2.2 ++ [EntryW.setWidth e st.2.1])
  else
    (y2, er.width, st.2.2 ++ [e])

/-- Menu::add_action, translated line by line: start from the menu's own
rectangle, raise its width to eight times the byte length of the label (the
Rust code multiplies the String byte length, cast to u32, by 8), walk the
existing entries accumulating y and normalizing widths, then append the
action with the accumulated y and final width. -/
def Menu.add_action (m : Menu) (action : Action) : Menu :=
  let action_rect0 := m.rect
  let action_text_width := action.text.utf8ByteSize % 4294967296 * 8 % 4294967296
  let action_rect1 :=
    if action_rect0.width < action_text_width then
      { action_rect0 with width := action_text_width }
    else action_rect0
  let st := List.foldl addActionStep
    (action_rect1.y + (action_rect1.height : Int), action_rect1.width, ([] : List EntryW))
    m.entries
  { m with entries := st.2.2 ++
      [EntryW.action { action with rect := { action_rect1 with y := st.1, width := st.2.1 } }] }

/-- Body of the entry walk inside Menu::add_separator: accumulate y and take
the maximum of the separator's candidate width and each entry's width,
without mutating any existing entry. -/
def sepStep (st : Int × Nat) (e : EntryW) : Int × Nat :=
  let er := EntryW.rectOf e
  (st.1 + (er.height : Int), if er.width > st.2 then er.width else st.2)

/-- Menu::add_separator, translated line by line. -/
def Menu.add_separator (m : Menu) : Menu :=
  let sep_rect0 := m.rect
  let st := List.foldl sepStep (sep_rect0.y + (sep_rect0.height : Int), sep_rect0.width) m.entries
  { m with entries := m.entries ++ [EntryW.separator { sep_rect0 with y := st.1, width := st.2 }] }

/-- One append operation on a menu, for stating properties of arbitrary
sequences of add_action and add_separator calls. -/
inductive MenuOp where
  | addAction (a : Action)
  | addSeparator
deriving DecidableEq

/-- Apply one append operation. -/
def Menu.applyOp (m : Menu) (op : MenuOp) : Menu :=
  match op with
  | MenuOp.addAction a => m.add_action a
  | MenuOp.addSeparator => m.add_separator

/-- Apply a sequence of append operations from left to right. -/
def Menu.runOps (m : Menu) (ops : List MenuOp) : Menu :=
  List.foldl Menu.applyOp m ops

/-- Result of one Action event dispatch: the updated widget, the redraw
out-flag, the value returned to the caller, and the local point passed to
emit_click when the click branch fires. -/
structure ActionOut where
  act : Action
  redraw : Bool
  consumed : Bool
  click : Option Point
deriving DecidableEq

/-- Widget::event for Action, translated branch by branch from the source:
inside the rectangle the hover flag is edge-set and a button-up with pressed
previously set is a click (pressed cleared, hover forced off, redraw,
callback fired with the local point); outside, hover is edge-cleared and a
button-up edge-clears pressed without a click.  The function always returns
false to its caller. -/
def Action.event (a0 : Action) (ev : Event) (_focused : Bool) (redraw0 : Bool) : ActionOut :=
  match ev with
  | Event.mouse point left_button =>
    let rect := a0.rect
    if Rect.contains rect point then
      let hs := checkSet a0.hover true
      let r1 := if hs.2 then true else redraw0
      if left_button then
        let ps := checkSet a0.pressed true
        let r2 := if ps.2 then true else r1
        { act := { a0 with hover := hs.1, pressed := ps.1 },
          redraw := r2, consumed := false, click := none }
      else
        let ps := checkSet a0.pressed false
        if ps.2 then
          { act := { a0 with hover := false, pressed := ps.1 },
            redraw := true, consumed := false,
            click := some (Point.sub point (Rect.point rect)) }
        else
          { act := { a0 with hover := hs.1, pressed := ps.1 },
            redraw := r1, consumed := false, click := none }
    else
      let hs := checkSet a0.hover false
      let r1 := if hs.2 then true else redraw0
      if left_button then
        { act := { a0 with hover := hs.1 }, redraw := r1, consumed := false, click := none }
      else
        let ps := checkSet a0.pressed false
        let r2 := if ps.2 then true else r1
        { act := { a0 with hover := hs.1, pressed := ps.1 },
          redraw := r2, consumed := false, click := none }
  | Event.other =>
    { act := a0, redraw := redraw0, consumed := false, click := none }

/-- Widget::event for Separator: stateless, reports whether the pointer is
inside its rectangle, never touches the redraw flag. -/
def Separator.event (r : Rect) (ev : Event) : Bool :=
  match ev with
  | Event.mouse point _ => Rect.contains r point
  | Event.other => false

/-- Event dispatch to one entry of a menu: an Action updates itself, a
Separator only reports containment.  The result is the updated entry, the
redraw flag and the value the entry returned. -/
def EntryW.event (e : EntryW) (ev : Event) (focused : Bool) (redraw0 : Bool) :
    EntryW × Bool × Bool :=
  match e with
  | EntryW.action a =>
    let o := Action.event a ev focused redraw0
    (EntryW.action o.act, o.redraw, o.consumed)
  | EntryW.separator r => (EntryW.separator r, redraw0, Separator.event r ev)

/-- Body of the child-forwarding loop at the top of Menu::event.  The state
is the processed entries, the redraw flag, the ignore_event flag and the
menu's pressed cell; a child that returns true sets both ignore_event and
pressed. -/
def childrenStep (ev : Event) (focused : Bool)
    (st : List EntryW × Bool × Bool × Bool) (e : EntryW) : List EntryW × Bool × Bool × Bool :=
  let r := EntryW.event e ev focused st.2.1
  if r.2.2 then (st.1 ++ [r.1], r.2.1, true, true)
  else (st.1 ++ [r.1], r.2.1, st.2.2.1, st.2.2.2)

/-- Result of one Menu event dispatch, mirroring ActionOut. -/
structure MenuOut where
  menu : Menu
  redraw : Bool
  consumed : Bool
  click : Option Point
deriving DecidableEq

/-- Widget::event for Menu, translated branch by branch: when activated the
event is first offered to every entry (children self-filter by hit-testing);
then the pointer is hit-tested against the menu's own header rectangle.
Inside, a button-down toggles pressed and edge-sets activated (firing a
click); a button-up with pressed clear edge-clears activated (also firing a
click).  Outside and with no child having claimed the event, a button-down
clears pressed and a button-up with pressed clear edge-clears activated
without a click.  The call returns the focused flag unchanged. -/
def Menu.event (m : Menu) (ev : Event) (focused : Bool) (redraw0 : Bool) : MenuOut :=
  let cst :=
    if m.activated then
      List.foldl (childrenStep ev focused) (([] : List EntryW), redraw0, false, m.pressed) m.entries
    else (m.entries, redraw0, false, m.pressed)
  let entries1 := cst.1
  let redraw1 := cst.2.1
  let ignore_event := cst.2.2.1
  let pressed1 := cst.2.2.2
  match ev with
  | Event.mouse point left_button =>
    let rect := m.rect
    if Rect.contains rect point then
      if left_button then
        let cs := checkSet m.activated true
        if cs.2 then
          { menu := { m with entries := entries1, pressed := !pressed1, activated := cs.1 },
            redraw := true, consumed := focused,
            click := some (Point.sub point (Rect.point rect)) }
        else
          { menu := { m with entries := entries1, pressed := !pressed1, activated := cs.1 },
            redraw := redraw1, consumed := focused, click := none }
      else
        if !pressed1 then
          let cs := checkSet m.activated false
          if cs.2 then
            { menu := { m with entries := entries1, pressed := pressed1, activated := cs.1 },
              redraw := true, consumed := focused,
              click := some (Point.sub point (Rect.point rect)) }
          else
            { menu := { m with entries := entries1, pressed := pressed1, activated := cs.1 },
              redraw := redraw1, consumed := focused, click := none }
        else
          { menu := { m with entries := entries1, pressed := pressed1 },
            redraw := redraw1, consumed := focused, click := none }
    else
      if !ignore_event then
        if left_button then
          { menu := { m with entries := entries1, pressed := false },
            redraw := redraw1, consumed := focused, click := none }
        else
          if !pressed1 then
            let cs := checkSet m.activated false
            { menu := { m with entries := entries1, pressed := pressed1, activated := cs.1 },
              redraw := if cs.2 then true else redraw1, consumed := focused, click := none }
          else
            { menu := { m with entries := entries1, pressed := pressed1 },
              redraw := redraw1, consumed := focused, click := none }
      else
        { menu := { m with entries := entries1, pressed := pressed1 },
          redraw := redraw1, consumed := focused, click := none }
  | Event.other =>
    { menu := { m with entries := entries1, pressed := pressed1 },
      redraw := redraw1, consumed := focused, click := none }

/-- Total height of a list of entries, the amount the y accumulator of both
append loops advances by. -/
def sumHeights : List EntryW → Int
  | [] => 0
  | e :: tl => ((EntryW.rectOf e).height : Int) + sumHeights tl

/-- Recursive description of the entry list produced by the add_action walk:
entries narrower than the running candidate width are widened to it, the
others are kept and raise the candidate. -/
def normWidths (w : Nat) : List EntryW → List EntryW
  | [] => []
  | e :: tl =>
    if (EntryW.rectOf e).width < w then EntryW.setWidth e w :: normWidths w tl
    else e :: normWidths (EntryW.rectOf e).width tl

/-- Recursive description of the candidate width left after the add_action
walk. -/
def normFinal (w : Nat) : List EntryW → Nat
  | [] => w
  | e :: tl =>
    if (EntryW.rectOf e).width < w then normFinal w tl
    else normFinal (EntryW.rectOf e).width tl

/-- Recursive description of the width computed by the add_separator walk. -/
def sepW (w : Nat) : List EntryW → Nat
  | [] => w
  | e :: tl => sepW (if (EntryW.rectOf e).width > w then (EntryW.rectOf e).width else w) tl

/-- Sentence of the spec, as amended for claim C1: a step of the common-width
computation.  An appended action raises the running common width to eight
times the UTF-8 byte length of its label (as a 32-bit value); an appended
separator leaves it unchanged. -/
def specWidthStep (w : Nat) (op : MenuOp) : Nat :=
  match op with
  | MenuOp.addAction a => max w (a.text.utf8ByteSize % 4294967296 * 8 % 4294967296)
  | MenuOp.addSeparator => w

/-- Sentence of the spec, as amended for claim C1: after a sequence of
appends starting from a menu of the given width, the common width of all
entries is the maximum of the menu width and the per-action label widths. -/
def specCommonWidth (base : Nat) (ops : List MenuOp) : Nat :=
  List.foldl specWidthStep base ops

/-- The stacking shape of an entry list: starting at a given y, each entry
sits exactly at the accumulated y, has the menu rectangle's height, and
advances the accumulator by its height. -/
def stacked (mr : Rect) : Int → List EntryW → Prop
  | _, [] => True
  | y, e :: tl =>
    (EntryW.rectOf e).y = y ∧ (EntryW.rectOf e).height = mr.height
      ∧ stacked mr (y + ((EntryW.rectOf e).height : Int)) tl

/-- Concrete entry used by sanity checks and witnesses below: the single
entry produced by appending an action labeled ab to a fresh menu of zero
width and height 16. -/
def sampleEntry : EntryW :=
  EntryW.action
    { rect := { x := 0, y := 16, width := 16, height := 16 },
      text := "ab", icon := none, pressed := false, hover := false }

/-- Concrete two-operation append sequence used by witnesses below. -/
def sampleOps : List MenuOp :=
  [MenuOp.addAction (Action.new "ab"), MenuOp.addSeparator]

/-- Fixture for claim C2: an activated menu with header 100 by 20 holding a
single idle action at rectangle (0,20,50,20). -/
def cex2Menu : Menu :=
  { rect := { x := 0, y := 0, width := 100, height := 20 }, text := "m",
    entries := [EntryW.action { rect := { x := 0, y := 20, width := 50, height := 20 }, text := "A", icon := none, pressed := false, hover := false }],
    pressed := false, activated := true }

/-- Fixture for claim C4: a collapsed menu with header 100 by 20, arbitrary
entries and label. -/
def c4Start (es : List EntryW) (name : String) : Menu :=
  { rect := { x := 0, y := 0, width := 100, height := 20 }, text := name,
    entries := es, pressed := false, activated := false }

/-- State of the C4 fixture after the button-down event at (5,5). -/
def c4AfterPress (es : List EntryW) (name : String) (f1 : Bool) : MenuOut :=
  Menu.event (c4Start es name) (Event.mouse { x := 5, y := 5 } true) f1 false

/-- State of the C4 fixture after the matched button-up event at (5,5). -/
def c4AfterRelease (es : List EntryW) (name : String) (f1 f2 : Bool) : MenuOut :=
  Menu.event (c4AfterPress es name f1).menu (Event.mouse { x := 5, y := 5 } false) f2 false

/-- Fixture for claim C6's witness: an activated menu with one separator
entry below the header. -/
def cex6Menu : Menu :=
  { rect := { x := 0, y := 0, width := 100, height := 20 }, text := "m",
    entries := [EntryW.separator { x := 0, y := 20, width := 100, height := 20 }],
    pressed := false, activated := true }

/-- Fixture for claim C7's witness: an idle action at (0,0,50,20). -/
def cex7Action : Action :=
  { rect := { x := 0, y := 0, width := 50, height := 20 }, text := "A", icon := none, pressed := false, hover := false }

/-- Fixture for claim C8's counterexample: an action at (0,0,50,20) that is
currently pressed and hovered, as after a button-down inside it. -/
def cex8Action : Action :=
  { rect := { x := 0, y := 0, width := 50, height := 20 }, text := "A", icon := none, pressed := true, hover := true }

/-- Fixture for claim C8's witness: the same action, idle. -/
def cex8bAction : Action :=
  { rect := { x := 0, y := 0, width := 50, height := 20 }, text := "A", icon := none, pressed := false, hover := false }

example : ("ab".utf8ByteSize) = 2 := by decide

example :
    ((Menu.new { x := 0, y := 0, width := 0, height := 16 } "m").add_action
      (Action.new "ab")).entries = [sampleEntry] := by decide

theorem rectOf_setWidth (e : EntryW) (w : Nat) :
    EntryW.rectOf (EntryW.setWidth e w) = { EntryW.rectOf e with width := w } := by
  cases e <;> rfl

theorem addAction_foldl (es : List EntryW) :
    ∀ (y : Int) (w : Nat) (acc : List EntryW),
      List.foldl addActionStep (y, w, acc) es
        = (y + sumHeights es, normFinal w es, acc ++ normWidths w es) := by
  induction es with
  | nil => intro y w acc; simp [sumHeights, normFinal, normWidths]
  | cons e tl ih =>
    intro y w acc
    simp only [List.foldl, addActionStep, sumHeights, normFinal, normWidths]
    by_cases hc : (EntryW.rectOf e).width < w
    · rw [if_pos hc, if_pos hc, if_pos hc, ih]
      simp [Prod.mk.injEq, add_assoc, List.append_assoc]
    · rw [if_neg hc, if_neg hc, if_neg hc, ih]
      simp [Prod.mk.injEq, add_assoc, List.append_assoc]

theorem sep_foldl (es : List EntryW) :
    ∀ (y : Int) (w : Nat),
      List.foldl sepStep (y, w) es = (y + sumHeights es, sepW w es) := by
  induction es with
  | nil => intro y w; simp [sumHeights, sepW]
  | cons e tl ih =>
    intro y w
    simp only [List.foldl, sepStep, sumHeights, sepW]
    rw [ih]
    simp [Prod.mk.injEq, add_assoc]

theorem sumHeights_normWidths (es : List EntryW) :
    ∀ w, sumHeights (normWidths w es) = sumHeights es := by
  induction es with
  | nil => intro w; rfl
  | cons e tl ih =>
    intro w
    simp only [normWidths]
    by_cases hc : (EntryW.rectOf e).width < w
    · rw [if_pos hc]; simp [sumHeights, rectOf_setWidth, ih]
    · rw [if_neg hc]; simp [sumHeights, ih]

theorem gt_ite_eq_max (a w : Nat) : (if a > w then a else w) = max w a := by
  rcases Nat.lt_or_ge w a with h | h
  · rw [if_pos h, Nat.max_eq_right (Nat.le_of_lt h)]
  · rw [if_neg (Nat.not_lt.mpr h), Nat.max_eq_left h]

theorem lt_ite_width_eq_max (r t : Nat) : (if r < t then t else r) = max r t := by
  rcases Nat.lt_or_ge r t with h | h
  · rw [if_pos h, Nat.max_eq_right (Nat.le_of_lt h)]
  · rw [if_neg (Nat.not_lt.mpr h), Nat.max_eq_left h]

theorem norm_allEq (W : Nat) (es : List EntryW) :
    ∀ w, (∀ e ∈ es, (EntryW.rectOf e).width = W) →
      (∀ e2 ∈ normWidths w es, (EntryW.rectOf e2).width = max w W)
      ∧ normFinal w es = (if es.isEmpty then w else max w W) := by
  induction es with
  | nil => intro w _; simp [normWidths, normFinal]
  | cons e tl ih =>
    intro w hall
    have he : (EntryW.rectOf e).width = W := hall e (List.mem_cons_self e tl)
    have htl : ∀ e2 ∈ tl, (EntryW.rectOf e2).width = W :=
      fun e2 h2 => hall e2 (List.mem_cons_of_mem e h2)
    simp only [normWidths, normFinal, he]
    by_cases hc : W < w
    · rw [if_pos hc, if_pos hc]
      have hmax : max w W = w := Nat.max_eq_left (Nat.le_of_lt hc)
      obtain ⟨ihw, ihf⟩ := ih w htl
      refine ⟨?_, ?_⟩
      · intro e2 h2
        rcases List.mem_cons.mp h2 with h2 | h2
        · rw [h2, rectOf_setWidth, hmax]
        · exact ihw e2 h2
      · rw [ihf, hmax]
        cases tl <;> simp
    · rw [if_neg hc, if_neg hc]
      have hw : w ≤ W := Nat.le_of_not_lt hc
      have hmax : max w W = W := Nat.max_eq_right hw
      obtain ⟨ihw, ihf⟩ := ih W htl
      refine ⟨?_, ?_⟩
      · intro e2 h2
        rcases List.mem_cons.mp h2 with h2 | h2
        · rw [h2, he, hmax]
        · rw [ihw e2 h2, Nat.max_self, hmax]
      · rw [ihf, hmax]
        cases tl <;> simp

theorem sepW_allEq (W : Nat) (es : List EntryW) :
    ∀ w, (∀ e ∈ es, (EntryW.rectOf e).width = W) →
      sepW w es = (if es.isEmpty then w else max w W) := by
  induction es with
  | nil => intro w _; simp [sepW]
  | cons e tl ih =>
    intro w hall
    have he : (EntryW.rectOf e).width = W := hall e (List.mem_cons_self e tl)
    have htl : ∀ e2 ∈ tl, (EntryW.rectOf e2).width = W :=
      fun e2 h2 => hall e2 (List.mem_cons_of_mem e h2)
    simp only [sepW, he, gt_ite_eq_max]
    rw [ih (max w W) htl]
    cases tl with
    | nil => simp
    | cons f tf => simp [Nat.max_assoc, Nat.max_self]

theorem ite_rect_width (r : Rect) (t : Nat) :
    (if r.width < t then { r with width := t } else r) = { r with width := max r.width t } := by
  rcases Nat.lt_or_ge r.width t with h | h
  · rw [if_pos h, Nat.max_eq_right (Nat.le_of_lt h)]
  · rw [if_neg (Nat.not_lt.mpr h), Nat.max_eq_left h]

theorem add_action_entries (m : Menu) (a : Action) :
    (m.add_action a).entries
      = normWidths (max m.rect.width (a.text.utf8ByteSize % 4294967296 * 8 % 4294967296))
          m.entries
        ++ [EntryW.action { a with rect :=
            { x := m.rect.x,
              y := m.rect.y + (m.rect.height : Int) + sumHeights m.entries,
              width := normFinal
                (max m.rect.width (a.text.utf8ByteSize % 4294967296 * 8 % 4294967296))
                m.entries,
              height := m.rect.height } }] := by
  simp only [Menu.add_action, ite_rect_width, addAction_foldl, List.nil_append]

theorem add_separator_entries (m : Menu) :
    m.add_separator.entries
      = m.entries ++ [EntryW.separator
          { x := m.rect.x, y := m.rect.y + (m.rect.height : Int) + sumHeights m.entries,
            width := sepW m.rect.width m.entries, height := m.rect.height }] := by
  simp only [Menu.add_separator, sep_foldl]

theorem applyOp_rect (m : Menu) (op : MenuOp) : (m.applyOp op).rect = m.rect := by
  cases op <;> rfl

theorem applyOp_entries_ne_nil (m : Menu) (op : MenuOp) : (m.applyOp op).entries ≠ [] := by
  cases op <;> simp [Menu.applyOp, add_action_entries, add_separator_entries]

theorem add_action_width_inv (m : Menu) (a : Action) (W : Nat)
    (hall : ∀ e ∈ m.entries, (EntryW.rectOf e).width = W)
    (hle : m.rect.width ≤ W)
    (hemp : m.entries = [] → W = m.rect.width) :
    ∀ e ∈ (m.add_action a).entries,
      (EntryW.rectOf e).width
        = max W (a.text.utf8ByteSize % 4294967296 * 8 % 4294967296) := by
  rw [add_action_entries]
  by_cases hes : m.entries = []
  · rw [hemp hes, hes]
    intro e he
    simp only [normWidths, List.nil_append, List.mem_singleton] at he
    rw [he]
    simp [EntryW.rectOf, normFinal]
  · obtain ⟨hnw, hnf⟩ :=
      norm_allEq W m.entries
        (max m.rect.width (a.text.utf8ByteSize % 4294967296 * 8 % 4294967296)) hall
    have hne : m.entries.isEmpty = false := by
      cases h : m.entries with
      | nil => exact absurd h hes
      | cons x xs => rfl
    rw [hne, if_neg Bool.false_ne_true] at hnf
    have hmax :
        max (max m.rect.width (a.text.utf8ByteSize % 4294967296 * 8 % 4294967296)) W
          = max W (a.text.utf8ByteSize % 4294967296 * 8 % 4294967296) := by
      rw [Nat.max_comm m.rect.width _, Nat.max_assoc, Nat.max_eq_right hle, Nat.max_comm]
    intro e he
    rcases List.mem_append.mp he with h | h
    · rw [hnw e h, hmax]
    · rw [List.mem_singleton.mp h]
      simp only [EntryW.rectOf]
      rw [hnf, hmax]

theorem add_separator_width_inv (m : Menu) (W : Nat)
    (hall : ∀ e ∈ m.entries, (EntryW.rectOf e).width = W)
    (hle : m.rect.width ≤ W)
    (hemp : m.entries = [] → W = m.rect.width) :
    ∀ e ∈ m.add_separator.entries, (EntryW.rectOf e).width = W := by
  rw [add_separator_entries]
  by_cases hes : m.entries = []
  · rw [hemp hes, hes]
    intro e he
    simp only [List.nil_append, List.mem_singleton] at he
    rw [he]
    simp [EntryW.rectOf, sepW]
  · have hne : m.entries.isEmpty = false := by
      cases h : m.entries with
      | nil => exact absurd h hes
      | cons x xs => rfl
    have hsw := sepW_allEq W m.entries m.rect.width hall
    rw [hne, if_neg Bool.false_ne_true, Nat.max_eq_right hle] at hsw
    intro e he
    rcases List.mem_append.mp he with h | h
    · exact hall e h
    · rw [List.mem_singleton.mp h]
      simp only [EntryW.rectOf]
      exact hsw

theorem runOps_width_inv (ops : List MenuOp) :
    ∀ (m : Menu) (W : Nat),
      (∀ e ∈ m.entries, (EntryW.rectOf e).width = W) →
      m.rect.width ≤ W →
      (m.entries = [] → W = m.rect.width) →
      ∀ e ∈ (m.runOps ops).entries,
        (EntryW.rectOf e).width = List.foldl specWidthStep W ops := by
  induction ops with
  | nil =>
    intro m W hall _ _ e he
    exact hall e he
  | cons op tl ih =>
    intro m W hall hle hemp
    have hstep : m.runOps (op :: tl) = (m.applyOp op).runOps tl := rfl
    rw [hstep]
    have hrect : (m.applyOp op).rect = m.rect := applyOp_rect m op
    cases op with
    | addAction a =>
      refine ih (m.applyOp (MenuOp.addAction a))
        (max W (a.text.utf8ByteSize % 4294967296 * 8 % 4294967296)) ?_ ?_ ?_
      · exact add_action_width_inv m a W hall hle hemp
      · rw [hrect]
        exact le_trans hle (Nat.le_max_left _ _)
      · intro h
        exact absurd h (applyOp_entries_ne_nil m (MenuOp.addAction a))
    | addSeparator =>
      refine ih (m.applyOp MenuOp.addSeparator) W ?_ ?_ ?_
      · exact add_separator_width_inv m W hall hle hemp
      · rw [hrect]; exact hle
      · intro h
        exact absurd h (applyOp_entries_ne_nil m MenuOp.addSeparator)

theorem stacked_normWidths (mr : Rect) (es : List EntryW) :
    ∀ (y : Int) (w : Nat), stacked mr y es → stacked mr y (normWidths w es) := by
  induction es with
  | nil => intro y w _; trivial
  | cons e tl ih =>
    intro y w hst
    obtain ⟨hy, hh, htl⟩ := hst
    simp only [normWidths]
    by_cases hc : (EntryW.rectOf e).width < w
    · rw [if_pos hc]
      exact ⟨by rw [rectOf_setWidth]; exact hy,
        by rw [rectOf_setWidth]; exact hh,
        by rw [rectOf_setWidth]; exact ih _ _ htl⟩
    · rw [if_neg hc]
      exact ⟨hy, hh, ih _ _ htl⟩

theorem stacked_append_one (mr : Rect) (es : List EntryW) :
    ∀ (y : Int) (e : EntryW), stacked mr y es →
      (EntryW.rectOf e).y = y + sumHeights es →
      (EntryW.rectOf e).height = mr.height →
      stacked mr y (es ++ [e]) := by
  induction es with
  | nil =>
    intro y e _ hy hh
    simp only [sumHeights, add_zero] at hy
    exact ⟨hy, hh, trivial⟩
  | cons f tl ih =>
    intro y e hst hy hh
    obtain ⟨hfy, hfh, htl⟩ := hst
    refine ⟨hfy, hfh, ih _ e htl ?_ hh⟩
    rw [hy]
    simp [sumHeights]
    ring

theorem applyOp_stacked (m : Menu) (op : MenuOp)
    (hst : stacked m.rect (m.rect.y + (m.rect.height : Int)) m.entries) :
    stacked m.rect (m.rect.y + (m.rect.height : Int)) (m.applyOp op).entries := by
  cases op with
  | addAction a =>
    show stacked m.rect _ (m.add_action a).entries
    rw [add_action_entries]
    apply stacked_append_one
    · exact stacked_normWidths m.rect m.entries _ _ hst
    · simp only [EntryW.rectOf]
      rw [sumHeights_normWidths]
    · rfl
  | addSeparator =>
    show stacked m.rect _ m.add_separator.entries
    rw [add_separator_entries]
    apply stacked_append_one
    · exact hst
    · simp only [EntryW.rectOf]
    · rfl

theorem runOps_stacked (ops : List MenuOp) :
    ∀ m : Menu, stacked m.rect (m.rect.y + (m.rect.height : Int)) m.entries →
      stacked m.rect (m.rect.y + (m.rect.height : Int)) (m.runOps ops).entries := by
  induction ops with
  | nil => intro m hst; exact hst
  | cons op tl ih =>
    intro m hst
    have hstep : m.runOps (op :: tl) = (m.applyOp op).runOps tl := rfl
    rw [hstep]
    have hr := applyOp_rect m op
    have h1 := applyOp_stacked m op hst
    rw [← hr] at h1
    have := ih (m.applyOp op) h1
    rw [hr] at this
    exact this

theorem stacked_get_zero (mr : Rect) (es : List EntryW) (y : Int)
    (hst : stacked mr y es) (h : 0 < es.length) :
    (EntryW.rectOf (es.get ⟨0, h⟩)).y = y := by
  cases es with
  | nil => simp at h
  | cons e tl => exact hst.1

theorem stacked_get_succ (mr : Rect) (es : List EntryW) :
    ∀ (y : Int), stacked mr y es → ∀ (i : Nat) (h : i + 1 < es.length),
      (EntryW.rectOf (es.get ⟨i + 1, h⟩)).y
        = (EntryW.rectOf (es.get ⟨i, Nat.lt_of_succ_lt h⟩)).y
          + ((EntryW.rectOf (es.get ⟨i, Nat.lt_of_succ_lt h⟩)).height : Int) := by
  induction es with
  | nil => intro y _ i h; simp at h
  | cons e tl ih =>
    intro y hst i h
    obtain ⟨hy, hh, htl⟩ := hst
    cases i with
    | zero =>
      cases tl with
      | nil => simp at h
      | cons f tf =>
        show (EntryW.rectOf f).y = (EntryW.rectOf e).y + ((EntryW.rectOf e).height : Int)
        rw [hy, htl.1]
    | succ i =>
      have h2 : i + 1 < tl.length := by
        simp only [List.length_cons] at h
        omega
      have := ih _ htl i h2
      exact this

/-- Claim C1, counterexample: on a menu whose header rectangle is 100 wide,
appending the single action labeled a leaves that entry 100 wide, not the 8
pixels that are eight times the label's character count, so the entry width
does not equal the maximum width requested by any action appended so far. -/
theorem claim1_counterexample :
    ((Menu.runOps (Menu.new { x := 0, y := 0, width := 100, height := 20 } "m")
        [MenuOp.addAction (Action.new "a")]).entries.map
      (fun e => (EntryW.rectOf e).width)) = [100]
    ∧ (100 : Nat) ≠ 8 * (String.length "a") := by decide

/-- Claim C1 as amended: after any sequence of add_action and add_separator
calls on a fresh menu, every entry's rectangle width equals the running
maximum of the menu's own width and eight times the UTF-8 byte length of the
label of every action appended so far; in particular all entries share one
common width, and each add_action raises every earlier entry to the new
common width. -/
theorem claim1_amended (rect : Rect) (name : String) (ops : List MenuOp) :
    ∀ e ∈ (Menu.runOps (Menu.new rect name) ops).entries,
      (EntryW.rectOf e).width = specCommonWidth rect.width ops := by
  intro e he
  exact runOps_width_inv ops (Menu.new rect name) rect.width
    (by intro e2 h2; simp [Menu.new] at h2) (le_refl _) (fun _ => rfl) e he

/-- Witness for the amended claim C1 at a concrete input: a fresh zero-width
menu of height 16, one action labeled ab followed by one separator. -/
theorem claim1_amended_witness :
    (EntryW.rectOf sampleEntry).width = specCommonWidth 0 sampleOps :=
  claim1_amended { x := 0, y := 0, width := 0, height := 16 } "m" sampleOps
    sampleEntry (by decide)

/-- Claim C3, counterexample: the label of one character with a two-byte
UTF-8 encoding yields a required width of 16 pixels, not the 8 pixels that
are eight times its character count, because the source multiplies the byte
length of the label, not its character count. -/
theorem claim3_counterexample :
    ((Menu.new { x := 0, y := 0, width := 0, height := 20 } "m").add_action
        (Action.new "é")).entries.map (fun e => (EntryW.rectOf e).width) = [16]
    ∧ 8 * (String.length "é") = 8
    ∧ (16 : Nat) ≠ 8 := by decide

/-- Claim C3 as amended: for every action appended to a fresh zero-width
menu (so that neither the menu width nor existing entries interfere), the
appended entry's width is eight times the UTF-8 byte length of the label,
reduced modulo 2 to the 32; the icon and the flags of the action contribute
nothing.  For pure ASCII labels this agrees with eight times the character
count. -/
theorem claim3_amended (x y : Int) (h : Nat) (name : String) (a : Action) :
    ((Menu.new { x := x, y := y, width := 0, height := h } name).add_action a).entries
      = [EntryW.action { a with rect :=
          { x := x, y := y + (h : Int),
            width := a.text.utf8ByteSize % 4294967296 * 8 % 4294967296,
            height := h } }] := by
  rw [add_action_entries]
  simp [Menu.new, normWidths, normFinal, sumHeights, Nat.zero_max]

/-- Claim C5: after any sequence of add_action and add_separator calls on a
fresh menu, each entry's y coordinate is the previous entry's y plus the
previous entry's height, and the first entry's y is the menu rectangle's y
plus the menu rectangle's height. -/
theorem claim5_stacking (rect : Rect) (name : String) (ops : List MenuOp) :
    (∀ (i : Nat) (h : i + 1 < (Menu.runOps (Menu.new rect name) ops).entries.length),
        (EntryW.rectOf ((Menu.runOps (Menu.new rect name) ops).entries.get ⟨i + 1, h⟩)).y
          = (EntryW.rectOf ((Menu.runOps (Menu.new rect name) ops).entries.get
              ⟨i, Nat.lt_of_succ_lt h⟩)).y
            + ((EntryW.rectOf ((Menu.runOps (Menu.new rect name) ops).entries.get
                ⟨i, Nat.lt_of_succ_lt h⟩)).height : Int))
    ∧ ∀ (h0 : 0 < (Menu.runOps (Menu.new rect name) ops).entries.length),
        (EntryW.rectOf ((Menu.runOps (Menu.new rect name) ops).entries.get ⟨0, h0⟩)).y
          = rect.y + (rect.height : Int) := by
  have hst : stacked (Menu.new rect name).rect
      ((Menu.new rect name).rect.y + ((Menu.new rect name).rect.height : Int))
      (Menu.new rect name).entries := trivial
  have h2 := runOps_stacked ops (Menu.new rect name) hst
  exact ⟨fun i h => stacked_get_succ _ _ _ h2 i h,
    fun h0 => stacked_get_zero _ _ _ h2 h0⟩

/-- Witness for claim C5 at a concrete input: a fresh menu of height 16 with
one action and one separator appended; the separator sits at y 32, which is
the action's y 16 plus its height 16, and the action sits at the menu's y 0
plus the menu's height 16. -/
theorem claim5_witness :
    (EntryW.rectOf ((Menu.runOps (Menu.new { x := 0, y := 0, width := 0, height := 16 } "m")
          sampleOps).entries.get ⟨1, by decide⟩)).y
      = (EntryW.rectOf ((Menu.runOps (Menu.new { x := 0, y := 0, width := 0, height := 16 } "m")
          sampleOps).entries.get ⟨0, by decide⟩)).y
        + ((EntryW.rectOf ((Menu.runOps (Menu.new { x := 0, y := 0, width := 0, height := 16 } "m")
          sampleOps).entries.get ⟨0, by decide⟩)).height : Int)
    ∧ (EntryW.rectOf ((Menu.runOps (Menu.new { x := 0, y := 0, width := 0, height := 16 } "m")
          sampleOps).entries.get ⟨0, by decide⟩)).y = 0 + ((16 : Nat) : Int) :=
  ⟨(claim5_stacking { x := 0, y := 0, width := 0, height := 16 } "m" sampleOps).1 0 (by decide),
    (claim5_stacking { x := 0, y := 0, width := 0, height := 16 } "m" sampleOps).2 (by decide)⟩

/-- Claim C10: add_action and add_separator change only the entry list (and
through it the rectangles of previously inserted entries); the menu's own
rectangle cell, label text, pressed flag and activated flag are unchanged by
every call to either operation. -/
theorem claim10_frame (m : Menu) (a : Action) :
    (m.add_action a).rect = m.rect ∧ (m.add_action a).text = m.text
    ∧ (m.add_action a).pressed = m.pressed ∧ (m.add_action a).activated = m.activated
    ∧ m.add_separator.rect = m.rect ∧ m.add_separator.text = m.text
    ∧ m.add_separator.pressed = m.pressed ∧ m.add_separator.activated = m.activated :=
  ⟨rfl, rfl, rfl, rfl, rfl, rfl, rfl, rfl⟩

theorem action_event_consumed (a : Action) (ev : Event) (f rd : Bool) :
    (Action.event a ev f rd).consumed = false := by
  cases ev with
  | mouse p b =>
    simp only [Action.event]
    split_ifs <;> rfl
  | other => rfl

theorem action_event_rect (a : Action) (ev : Event) (f rd : Bool) :
    (Action.event a ev f rd).act.rect = a.rect := by
  cases ev with
  | mouse p b =>
    simp only [Action.event]
    split_ifs <;> rfl
  | other => rfl

theorem entry_event_not_consumed (e : EntryW) (p : Point) (b f rd : Bool)
    (hout : Rect.contains (EntryW.rectOf e) p = false) :
    (EntryW.event e (Event.mouse p b) f rd).2.2 = false := by
  cases e with
  | action a => simp [EntryW.event, action_event_consumed]
  | separator r =>
    simp only [EntryW.rectOf] at hout
    simp [EntryW.event, Separator.event, hout]

theorem children_keep_flags (ev : Event) (f : Bool) (es : List EntryW) :
    ∀ (acc : List EntryW) (rd ign pr : Bool),
      (∀ e ∈ es, ∀ rd2, (EntryW.event e ev f rd2).2.2 = false) →
      (List.foldl (childrenStep ev f) (acc, rd, ign, pr) es).2.2.1 = ign
      ∧ (List.foldl (childrenStep ev f) (acc, rd, ign, pr) es).2.2.2 = pr := by
  induction es with
  | nil => intro acc rd ign pr _; exact ⟨rfl, rfl⟩
  | cons e tl ih =>
    intro acc rd ign pr hcons
    have he := hcons e (List.mem_cons_self e tl) rd
    have htl : ∀ e2 ∈ tl, ∀ rd2, (EntryW.event e2 ev f rd2).2.2 = false :=
      fun e2 h2 => hcons e2 (List.mem_cons_of_mem e h2)
    simp only [List.foldl, childrenStep, he, Bool.false_eq_true, if_false]
    exact ih _ _ _ _ htl

theorem children_pressed_true (ev : Event) (f : Bool) (es : List EntryW) :
    ∀ (acc : List EntryW) (rd ign : Bool),
      (List.foldl (childrenStep ev f) (acc, rd, ign, true) es).2.2.2 = true := by
  induction es with
  | nil => intro acc rd ign; rfl
  | cons e tl ih =>
    intro acc rd ign
    simp only [List.foldl, childrenStep]
    split
    · exact ih _ _ _
    · exact ih _ _ _

/-- Claim C9: Action event dispatch returns false to its caller for every
action, every event, every focused flag and every incoming redraw flag; an
Action never reports the event as consumed. -/
theorem claim9_action_returns_false (a : Action) (ev : Event) (f rd : Bool) :
    (Action.event a ev f rd).consumed = false := by
  cases ev with
  | mouse p b =>
    simp only [Action.event]
    split_ifs <;> rfl
  | other => rfl

/-- Claim C2, counterexample: in the spec's cross-talk scenario (activated
menu, one action at (0,20,50,20), button-down at (10,30) inside the action
and outside the header) the menu's pressed flag does NOT become true: the
action returns false, so ignore_event stays false and the outside-header
button-down branch clears pressed. -/
theorem claim2_counterexample :
    ¬ ((Menu.event cex2Menu (Event.mouse { x := 10, y := 30 } true) false false).menu.pressed
        = true) := by decide

/-- Claim C2 as amended: in the same scenario the Action does take its
press and hover transition (both flags set, redraw requested), but since
Action event dispatch always returns false, ignore_event stays false and
the Menu runs its outside-header button-down branch, which sets the Menu's
pressed flag to false; activated stays true and no menu click fires. -/
theorem claim2_amended :
    (Menu.event cex2Menu (Event.mouse { x := 10, y := 30 } true) false false).menu.pressed = false
    ∧ (Menu.event cex2Menu (Event.mouse { x := 10, y := 30 } true) false false).menu.activated = true
    ∧ (Menu.event cex2Menu (Event.mouse { x := 10, y := 30 } true) false false).redraw = true
    ∧ (Menu.event cex2Menu (Event.mouse { x := 10, y := 30 } true) false false).click = none
    ∧ (Menu.event cex2Menu (Event.mouse { x := 10, y := 30 } true) false false).menu.entries
        = [EntryW.action { rect := { x := 0, y := 20, width := 50, height := 20 }, text := "A", icon := none, pressed := true, hover := true }] := by
  decide

/-- Claim C6: an activated menu with pressed clear that receives a button-up
event outside its header and outside every entry collapses: activated
becomes false, a redraw is requested, and the menu click callback is not
invoked. -/
theorem claim6_outside_collapse (m : Menu) (p : Point) (f rd : Bool)
    (hact : m.activated = true) (hpr : m.pressed = false)
    (hout : Rect.contains m.rect p = false)
    (hents : ∀ e ∈ m.entries, Rect.contains (EntryW.rectOf e) p = false) :
    (Menu.event m (Event.mouse p false) f rd).menu.activated = false
    ∧ (Menu.event m (Event.mouse p false) f rd).redraw = true
    ∧ (Menu.event m (Event.mouse p false) f rd).click = none := by
  have hcons : ∀ e ∈ m.entries, ∀ rd2,
      (EntryW.event e (Event.mouse p false) f rd2).2.2 = false :=
    fun e he rd2 => entry_event_not_consumed e p false f rd2 (hents e he)
  obtain ⟨hign, hprs⟩ :=
    children_keep_flags (Event.mouse p false) f m.entries [] rd false false hcons
  simp only [Menu.event, hact, hpr, hout, checkSet]
  simp [hign, hprs]

/-- Witness for claim C6 at a concrete input: the activated menu with one
separator entry, button-up at (500,500). -/
theorem claim6_witness :
    (Menu.event cex6Menu (Event.mouse { x := 500, y := 500 } false) false false).menu.activated
        = false
    ∧ (Menu.event cex6Menu (Event.mouse { x := 500, y := 500 } false) false false).redraw = true
    ∧ (Menu.event cex6Menu (Event.mouse { x := 500, y := 500 } false) false false).click = none :=
  claim6_outside_collapse cex6Menu { x := 500, y := 500 } false false (by decide) (by decide)
    (by decide) (by decide)

/-- Claim C4: on a collapsed menu with header (0,0,100,20), a button-down at
(5,5) activates the menu, sets pressed and fires the click callback at local
point (5,5); the matched button-up at the same point is then blocked by the
pressed flag, so the menu stays activated and no second click fires.  The
entry list and the label are arbitrary. -/
theorem claim4_menu_toggle (es : List EntryW) (name : String) (f1 f2 : Bool) :
    (c4AfterPress es name f1).menu.activated = true
    ∧ (c4AfterPress es name f1).menu.pressed = true
    ∧ (c4AfterPress es name f1).click = some { x := 5, y := 5 }
    ∧ (c4AfterRelease es name f1 f2).menu.activated = true
    ∧ (c4AfterRelease es name f1 f2).click = none := by
  have h1 : c4AfterPress es name f1
      = { menu := { rect := { x := 0, y := 0, width := 100, height := 20 }, text := name, entries := es, pressed := true, activated := true }, redraw := true, consumed := f1, click := some { x := 5, y := 5 } } := rfl
  have hprt := children_pressed_true (Event.mouse { x := 5, y := 5 } false) f2 es [] false false
  have hc : Rect.contains { x := 0, y := 0, width := 100, height := 20 } { x := 5, y := 5 }
      = true := by decide
  refine ⟨by rw [h1], by rw [h1], by rw [h1], ?_, ?_⟩
  · simp only [c4AfterRelease, h1, Menu.event, hc, checkSet]
    simp [hprt]
  · simp only [c4AfterRelease, h1, Menu.event, hc, checkSet]
    simp [hprt]

/-- Claim C7: an action receiving a press inside its rectangle, a move
outside with the button still down, and then a release outside never fires
its click callback at any of the three steps; the release outside only
clears the pressed flag (hover is already clear) and requests a redraw. -/
theorem claim7_drag_off (a : Action) (p1 p2 p3 : Point) (f1 f2 f3 : Bool)
    (h1 : Rect.contains a.rect p1 = true)
    (h2 : Rect.contains a.rect p2 = false)
    (h3 : Rect.contains a.rect p3 = false) :
    (Action.event a (Event.mouse p1 true) f1 false).click = none
    ∧ (Action.event (Action.event a (Event.mouse p1 true) f1 false).act
        (Event.mouse p2 true) f2 false).click = none
    ∧ (Action.event (Action.event (Action.event a (Event.mouse p1 true) f1 false).act
        (Event.mouse p2 true) f2 false).act (Event.mouse p3 false) f3 false).click = none
    ∧ (Action.event (Action.event (Action.event a (Event.mouse p1 true) f1 false).act
        (Event.mouse p2 true) f2 false).act (Event.mouse p3 false) f3 false).act.pressed = false
    ∧ (Action.event (Action.event (Action.event a (Event.mouse p1 true) f1 false).act
        (Event.mouse p2 true) f2 false).act (Event.mouse p3 false) f3 false).act.hover = false
    ∧ (Action.event (Action.event (Action.event a (Event.mouse p1 true) f1 false).act
        (Event.mouse p2 true) f2 false).act (Event.mouse p3 false) f3 false).redraw = true := by
  have s1a : (Action.event a (Event.mouse p1 true) f1 false).act
      = { a with hover := true, pressed := true } := by
    simp [Action.event, h1, checkSet]
  have s1c : (Action.event a (Event.mouse p1 true) f1 false).click = none := by
    simp [Action.event, h1, checkSet]
  have s2a : (Action.event { a with hover := true, pressed := true }
      (Event.mouse p2 true) f2 false).act = { a with hover := false, pressed := true } := by
    simp [Action.event, h2, checkSet]
  have s2c : (Action.event { a with hover := true, pressed := true }
      (Event.mouse p2 true) f2 false).click = none := by
    simp [Action.event, h2, checkSet]
  have s3 : Action.event { a with hover := false, pressed := true }
      (Event.mouse p3 false) f3 false
      = { act := { a with hover := false, pressed := false }, redraw := true,
          consumed := false, click := none } := by
    simp [Action.event, h3, checkSet]
  refine ⟨s1c, ?_, ?_, ?_, ?_, ?_⟩
  · rw [s1a]; exact s2c
  · rw [s1a, s2a, s3]
  · rw [s1a, s2a, s3]
  · rw [s1a, s2a, s3]
  · rw [s1a, s2a, s3]

/-- Witness for claim C7 at a concrete input: the idle action at (0,0,50,20)
with press at (5,5), move to (200,5), release at (200,5). -/
theorem claim7_witness :
    (Action.event cex7Action (Event.mouse { x := 5, y := 5 } true) false false).click = none
    ∧ (Action.event (Action.event cex7Action (Event.mouse { x := 5, y := 5 } true) false
        false).act (Event.mouse { x := 200, y := 5 } true) false false).click = none
    ∧ (Action.event (Action.event (Action.event cex7Action (Event.mouse { x := 5, y := 5 } true)
        false false).act (Event.mouse { x := 200, y := 5 } true) false false).act
        (Event.mouse { x := 200, y := 5 } false) false false).click = none
    ∧ (Action.event (Action.event (Action.event cex7Action (Event.mouse { x := 5, y := 5 } true)
        false false).act (Event.mouse { x := 200, y := 5 } true) false false).act
        (Event.mouse { x := 200, y := 5 } false) false false).act.pressed = false
    ∧ (Action.event (Action.event (Action.event cex7Action (Event.mouse { x := 5, y := 5 } true)
        false false).act (Event.mouse { x := 200, y := 5 } true) false false).act
        (Event.mouse { x := 200, y := 5 } false) false false).act.hover = false
    ∧ (Action.event (Action.event (Action.event cex7Action (Event.mouse { x := 5, y := 5 } true)
        false false).act (Event.mouse { x := 200, y := 5 } true) false false).act
        (Event.mouse { x := 200, y := 5 } false) false false).redraw = true :=
  claim7_drag_off cex7Action { x := 5, y := 5 } { x := 200, y := 5 } { x := 200, y := 5 }
    false false false (by decide) (by decide) (by decide)

/-- Claim C8, counterexample: delivering the same inside, button-up event
twice to an action that starts pressed sets the redraw flag on BOTH
deliveries: the first is the click (which forces hover off), so the second
delivery re-fires the edge-triggered hover transition. -/
theorem claim8_counterexample :
    (Action.event cex8Action (Event.mouse { x := 5, y := 5 } false) false false).redraw = true
    ∧ (Action.event (Action.event cex8Action (Event.mouse { x := 5, y := 5 } false) false
        false).act (Event.mouse { x := 5, y := 5 } false) false false).redraw = true := by
  decide

/-- Claim C8 as amended: for an action whose pressed flag is clear,
delivering the same inside, button-up event twice in a row sets the redraw
flag on the first delivery exactly when the hover flag was not already set,
and never sets it on the second delivery. -/
theorem claim8_amended (a : Action) (p : Point) (f1 f2 : Bool)
    (hpr : a.pressed = false) (hin : Rect.contains a.rect p = true) :
    (Action.event a (Event.mouse p false) f1 false).redraw = !a.hover
    ∧ (Action.event (Action.event a (Event.mouse p false) f1 false).act
        (Event.mouse p false) f2 false).redraw = false := by
  have s1a : (Action.event a (Event.mouse p false) f1 false).act
      = { a with hover := true, pressed := false } := by
    simp [Action.event, hin, hpr, checkSet]
  have s1r : (Action.event a (Event.mouse p false) f1 false).redraw = !a.hover := by
    cases hh : a.hover <;> simp [Action.event, hin, hpr, checkSet, hh]
  have s2 : (Action.event { a with hover := true, pressed := false }
      (Event.mouse p false) f2 false).redraw = false := by
    simp [Action.event, hin, checkSet]
  exact ⟨s1r, by rw [s1a]; exact s2⟩

/-- Witness for the amended claim C8 at a concrete input: the idle action at
(0,0,50,20) with both deliveries at (5,5). -/
theorem claim8_amended_witness :
    (Action.event cex8bAction (Event.mouse { x := 5, y := 5 } false) false false).redraw
        = !cex8bAction.hover
    ∧ (Action.event (Action.event cex8bAction (Event.mouse { x := 5, y := 5 } false) false
        false).act (Event.mouse { x := 5, y := 5 } false) false false).redraw = false :=
  claim8_amended cex8bAction { x := 5, y := 5 } false false (by decide) (by decide)

end OrbtkMenu
